import Mathlib

/-!
Verification of the mawa document normalization and zone-segmentation
pipeline (src/mawa/etl/transform.py, src/mawa/etl/table_utils.py,
src/mawa/schemas/document_schema.py) against its natural-language
specification.

The Python code is shallowly embedded: pydantic models become structures,
methods become pure functions, file I/O is abstracted into the parsed
values that are read and written, and the external collaborators
(perceptual image hashing, PDF page rasterization) are abstract
parameters at the interface granularity the spec itself assigns them.
Python exceptions are modelled with Option/Except.
-/

namespace Mawa

/-! ### Python string primitives

Executable models of the Python `str` operations used by the pipeline:
`strip`, `split`, `replace`, `in` (substring), `<` (code-point
lexicographic), and `join`.  Recursions are made structural with a fuel
argument always instantiated with a sufficient bound. -/

/-- Python whitespace for `str.strip` / `\s` (ASCII range, which is all
the pipeline's separator regexes rely on). -/
def pySpace (c : Char) : Bool :=
  c == ' ' || c == '\t' || c == '\n' || c == '\r' || c == '\x0b' || c == '\x0c'

/-- Python `str.strip()`. -/
def pyStrip (s : String) : String :=
  ⟨((s.toList.dropWhile pySpace).reverse.dropWhile pySpace).reverse⟩

/-- Worker for `str.split(sep)` on character lists, non-overlapping
left-to-right occurrences, with fuel (`fuel ≥ length + 1` suffices for a
non-empty separator). -/
def splitGo (sep : List Char) : Nat → List Char → List Char → List (List Char)
  | 0, l, cur => [cur.reverse ++ l]
  | fuel + 1, l, cur =>
    match l with
    | [] => [cur.reverse]
    | c :: rest =>
      if sep.isPrefixOf (c :: rest) then
        cur.reverse :: splitGo sep fuel ((c :: rest).drop sep.length) []
      else
        splitGo sep fuel rest (c :: cur)

/-- Python `s.split(sep)` for a non-empty separator. -/
def pySplit (s sep : String) : List String :=
  (splitGo sep.toList (s.toList.length + 1) s.toList []).map (fun cs => ⟨cs⟩)

/-- Worker for `str.replace` on character lists (all non-overlapping
occurrences, left to right), with fuel. -/
def replaceGo (pat rep : List Char) : Nat → List Char → List Char
  | 0, l => l
  | fuel + 1, l =>
    match l with
    | [] => []
    | c :: rest =>
      if pat.isPrefixOf (c :: rest) then
        rep ++ replaceGo pat rep fuel ((c :: rest).drop pat.length)
      else
        c :: replaceGo pat rep fuel rest

/-- Python `s.replace(pat, rep)` for a non-empty pattern. -/
def pyReplace (s pat rep : String) : String :=
  ⟨replaceGo pat.toList rep.toList (s.toList.length + 1) s.toList⟩

/-- Worker for substring containment: the pattern is a prefix of some
suffix. -/
def infixGo (pat : List Char) : List Char → Bool
  | [] => pat.isEmpty
  | c :: rest => pat.isPrefixOf (c :: rest) || infixGo pat rest

/-- Python `pat in s` (substring containment). -/
def strContains (s pat : String) : Bool :=
  infixGo pat.toList s.toList

/-- Python `<` on strings: code-point lexicographic order on char lists. -/
def strLtB : List Char → List Char → Bool
  | [], [] => false
  | [], _ :: _ => true
  | _ :: _, [] => false
  | a :: as, b :: bs =>
    if a.toNat < b.toNat then true
    else if a.toNat = b.toNat then strLtB as bs
    else false

/-- Python `sep.join(parts)`. -/
def joinSep (sep : String) : List String → String
  | [] => ""
  | [s] => s
  | s :: rest => s ++ sep ++ joinSep sep rest

/-! ### Document model (src/mawa/schemas/document_schema.py)

`document_schema.Paragraph` has exactly the fields `index` and `content`
(no `tag`, no `source_ref`); `model_metadata` is the free-form dict whose
keys `ocr_response_to_document` actually writes. -/

structure Image where
  name_img : String
  top_left_x : Int
  top_left_y : Int
  bottom_right_x : Int
  bottom_right_y : Int
  image_base64 : String
deriving Repr, DecidableEq

structure Dimensions where
  dpi : Int
  width : Int
  height : Int
deriving Repr, DecidableEq

structure Paragraph where
  index : Nat
  content : String
deriving Repr, DecidableEq

structure Page where
  index : Nat
  paragraphs : List Paragraph
  images : List Image
  dimensions : Dimensions
deriving Repr, DecidableEq

inductive DocumentType
  | PLU
  | DG
  | PLU_AND_DG
deriving Repr, DecidableEq

/-- The model-provenance map built by `ocr_response_to_document`
(keys model / pages_processed / doc_size_bytes / document_annotation). -/
structure ModelMetadata where
  model : String
  pages_processed : Option Nat
  doc_size_bytes : Option Nat
  document_annotation : List (String × String)
deriving Repr, DecidableEq

structure Document where
  pages : List Page
  name_of_document : String
  date_of_document : String
  document_type : DocumentType
  city : String
  zoning : Option String
  zone : Option String
  modified_at : Option String
  model_metadata : ModelMetadata
deriving Repr, DecidableEq

/-! ### Markdown table detection (src/mawa/etl/table_utils.py) -/

/-- The data/header row regex `^\|.*\|.*\|$` of `is_markdown_table`
(line has no newline): first char is a bar, last char is a bar, and the
line contains at least three bars in total. -/
def isRowLine (l : String) : Bool :=
  let cs := l.toList
  cs.head? == some '|' && cs.getLast? == some '|' && decide (3 ≤ cs.count '|')

def isSepChar (c : Char) : Bool :=
  c == '-' || c == ':'

/-- The separator regex `^\|\s*[-:]+\s*\|` of `is_markdown_table`
(`re.match`, so a prefix match).  The three character classes are
pairwise disjoint and none contains a bar, so the regex match is the
deterministic maximal-munch parse: a bar, optional whitespace, at least
one dash/colon, optional whitespace, then another bar. -/
def isSeparatorLine (l : String) : Bool :=
  match l.toList with
  | '|' :: rest =>
    let r1 := rest.dropWhile pySpace
    let seps := r1.takeWhile isSepChar
    let r2 := (r1.dropWhile isSepChar).dropWhile pySpace
    !seps.isEmpty && r2.head? == some '|'
  | _ => false

/-- The body of the line loop of `is_markdown_table`: strip the line,
skip it when empty (`continue`), else or-in the two pattern flags. -/
def tableFlagsStep (st : Bool × Bool) (line : String) : Bool × Bool :=
  let line := pyStrip line
  if line == "" then st
  else (st.1 || isRowLine line, st.2 || isSeparatorLine line)

/-- `is_markdown_table` (table_utils.py lines 31-80): empty-content
guard, split the stripped content on newlines, require at least two
lines, then scan every stripped line for a data row and for a separator
row; both flags must be set. -/
def is_markdown_table (content : String) : Bool :=
  if content == "" || pyStrip content == "" then false
  else
    let lines := pySplit (pyStrip content) "\n"
    if lines.length < 2 then false
    else
      let flags := lines.foldl tableFlagsStep (false, false)
      flags.1 && flags.2

/-- Spec-side table predicate, following the specification's Detection
paragraph with the separator clause amended to include the trailing
bar that the code's regex requires. -/
def isTableSpec (content : String) : Bool :=
  let lines := pySplit (pyStrip content) "\n"
  decide (2 ≤ lines.length) &&
    lines.any (fun l => isRowLine (pyStrip l)) &&
    lines.any (fun l => isSeparatorLine (pyStrip l))

/-- Claim-side separator predicate exactly as the claim words it: the
line begins with a vertical bar followed (whitespace-insensitively) by
dash/colon separator characters — no trailing bar mentioned. -/
def sepClaimLoose (l : String) : Bool :=
  match l.toList with
  | '|' :: rest => !((rest.dropWhile pySpace).takeWhile isSepChar).isEmpty
  | _ => false

/-- The table predicate exactly as claim C6 states it (its separator
clause does not require a closing bar). -/
def isTableClaimC6 (content : String) : Bool :=
  let lines := pySplit (pyStrip content) "\n"
  decide (2 ≤ lines.length) &&
    lines.any (fun l => isRowLine (pyStrip l)) &&
    lines.any (fun l => sepClaimLoose (pyStrip l))

/-! ### PDF rendering and table substitution (table_utils.py)

The source-page-render collaborator is modelled at the interface the
spec gives it: a PDF is either a missing file or a list of per-page
render results `(base64, width, height)` at the fixed dpi. -/

inductive RenderError
  | fileNotFound
  | indexOutOfRange
deriving Repr, DecidableEq

/-- `none` = the file does not exist; `some rs` = page `i` (0-based)
renders to `rs[i]`. -/
abbrev Pdf : Type := Option (List (String × Nat × Nat))

/-- `pdf_page_to_base64` (table_utils.py lines 83-136): raises
FileNotFoundError when the file is missing and IndexError when
`page_num < 0 or page_num >= len(doc)`; otherwise returns the rendered
page's `(base64, width, height)`. -/
def pdf_page_to_base64 (pdf : Pdf) (page_num : Int) :
    Except RenderError (String × Nat × Nat) :=
  match pdf with
  | Option.none => Except.error RenderError.fileNotFound
  | Option.some rs =>
    if page_num < 0 ∨ (rs.length : Int) ≤ page_num then
      Except.error RenderError.indexOutOfRange
    else
      Except.ok (rs.getD page_num.toNat ("", 0, 0))

/-- True when rendering the given 0-based page raises. -/
def renderFailed (pdf : Pdf) (page_num : Int) : Bool :=
  match pdf_page_to_base64 pdf page_num with
  | Except.error _ => true
  | Except.ok _ => false

/-- The Python exception `replace_tables_with_images` actually raises on
its success path: `document_schema.Paragraph` has no `source_ref`
attribute, so evaluating `para.source_ref` (table_utils.py line 214)
raises AttributeError. -/
inductive TableError
  | attributeError
deriving Repr, DecidableEq

/-- The running state of `replace_tables_with_images`: the
`rendered_pages` cache keyed by 0-based pdf page, and `table_count`. -/
structure TSt where
  rendered : List (Int × (String × Nat × Nat))
  count : Nat
deriving Repr, DecidableEq

/-- Python `pdf_page_idx in rendered_pages` / `rendered_pages[...]`. -/
def cacheLookup (c : List (Int × (String × Nat × Nat))) (k : Int) :
    Option (String × Nat × Nat) :=
  (c.find? (fun p => p.1 == k)).map (fun p => p.2)

/-- One iteration of the paragraph loop of `replace_tables_with_images`
(table_utils.py lines 175-219).  A non-table paragraph is kept.  For a
table paragraph the counter is bumped; if the page render is not cached
and rendering raises FileNotFoundError/IndexError the original
paragraph is kept and the loop continues; otherwise the code goes on to
build the replacement `Paragraph(index=..., content=..., tag=...,
source_ref=para.source_ref)`, and evaluating `para.source_ref` raises
AttributeError because `document_schema.Paragraph` has no such field,
so the run aborts there. -/
def replaceTablesPara (pdf : Pdf) (pdfIdx : Int)
    (acc : TSt × List Paragraph × List Image) (para : Paragraph) :
    Except TableError (TSt × List Paragraph × List Image) :=
  let st := acc.1
  let ps := acc.2.1
  let imgs := acc.2.2
  if is_markdown_table para.content then
    let count := st.count + 1
    match cacheLookup st.rendered pdfIdx with
    | Option.some _ => Except.error TableError.attributeError
    | Option.none =>
      match pdf_page_to_base64 pdf pdfIdx with
      | Except.error _ => Except.ok (⟨st.rendered, count⟩, ps ++ [para], imgs)
      | Except.ok v =>
        let _ := v
        Except.error TableError.attributeError
  else
    Except.ok (st, ps ++ [para], imgs)

/-- The per-page body of `replace_tables_with_images`: rebuild the
paragraph list, starting the image list from a copy of the page's
images (`pdf_page_idx = page.index - 1`), then assign both back onto
the page. -/
def replaceTablesPage (pdf : Pdf) (st : TSt) (page : Page) :
    Except TableError (TSt × Page) := do
  let r ← page.paragraphs.foldlM
    (replaceTablesPara pdf ((page.index : Int) - 1))
    (st, ([] : List Paragraph), page.images)
  pure (r.1, { page with paragraphs := r.2.1, images := r.2.2 })

/-- One iteration of the page loop of `replace_tables_with_images`. -/
def replaceTablesDocStep (pdf : Pdf) (acc : TSt × List Page) (page : Page) :
    Except TableError (TSt × List Page) := do
  let s ← replaceTablesPage pdf acc.1 page
  pure (s.1, acc.2 ++ [s.2])

/-- `replace_tables_with_images` (table_utils.py lines 139-225). -/
def replace_tables_with_images (doc : Document) (pdf : Pdf) :
    Except TableError Document := do
  let r ← doc.pages.foldlM (replaceTablesDocStep pdf)
    ((⟨[], 0⟩ : TSt), ([] : List Page))
  pure { doc with pages := r.2 }

/-! ### OCR normalization (transform.py lines 46-88)

`read_json(self.ocr_path)` is abstracted into the parsed OCR response;
`datetime.now().strftime(...)` into the `now` argument;
`save_json(..., self.raw_path)` into the returned Document. -/

structure OcrPage where
  markdown : String
  images : List Image
  dimensions : Dimensions
deriving Repr, DecidableEq

/-- The fields of the OCR response JSON that `ocr_response_to_document`
reads; `Option` models the `.get(..., default)` accesses. -/
structure OcrResponse where
  pages : List OcrPage
  date_of_document : String
  document_type : DocumentType
  model : Option String
  usage_pages_processed : Option Nat
  usage_doc_size_bytes : Option Nat
  document_annotation : Option (List (String × String))
deriving Repr, DecidableEq

/-- The inner paragraph loop: `for sub_index, paragraph in
enumerate(page["markdown"].split("\n\n")): append Paragraph(index =
sub_index + 1, content = paragraph)`. -/
def buildParagraphs (segs : List String) : List Paragraph :=
  (segs.foldl
    (fun (st : List Paragraph × Nat) seg =>
      (st.1 ++ [⟨st.2 + 1, seg⟩], st.2 + 1))
    ([], 0)).1

/-- The outer page loop: `for index, page in
enumerate(ocr_response["pages"]): append Page(index = index + 1, ...)`. -/
def buildPagesFromOcr (ops : List OcrPage) : List Page :=
  (ops.foldl
    (fun (st : List Page × Nat) p =>
      (st.1 ++ [⟨st.2 + 1, buildParagraphs (pySplit p.markdown "\n\n"),
                 p.images, p.dimensions⟩], st.2 + 1))
    ([], 0)).1

/-- `Transform.ocr_response_to_document` (transform.py lines 46-88). -/
def ocr_response_to_document (resp : OcrResponse) (doc_name city : String)
    (zone : Option String) (now : String) : Document :=
  { pages := buildPagesFromOcr resp.pages
    name_of_document := doc_name
    date_of_document := resp.date_of_document
    document_type := resp.document_type
    city := city
    zoning := Option.none
    zone := zone
    modified_at := Option.some now
    model_metadata :=
      { model := resp.model.getD ""
        pages_processed := resp.usage_pages_processed
        doc_size_bytes := resp.usage_doc_size_bytes
        document_annotation := resp.document_annotation.getD [] } }

/-- Claim-side paragraph construction for C8, as the claim words it:
only the non-empty segments become Paragraphs, indexed by their 1-based
position within the page's paragraph sequence. -/
def specParagraphsNonEmpty (md : String) : List Paragraph :=
  (((pySplit md "\n\n").filter (fun s => !(s == ""))).enumFrom 1).map
    (fun p => ⟨p.1, p.2⟩)

/-- Claim-side page construction for C8. -/
def specPagesC8 (resp : OcrResponse) : List Page :=
  (resp.pages.enumFrom 1).map
    (fun q => ⟨q.1, specParagraphsNonEmpty q.2.markdown,
               q.2.images, q.2.dimensions⟩)

/-! ### Deduplication (`Transform.clean_document`, transform.py 90-145)

`_get_image_hash_from_base64` (the perceptual-hash collaborator) is an
abstract parameter mapping the image's base64 payload to a hash bit
vector; `imagehash.ImageHash.__sub__` is the Hamming distance. -/

/-- Hamming distance between two perceptual hashes. -/
def hamming (a b : List Bool) : Nat :=
  (List.zipWith (fun x y => x != y) a b).count true

/-- One value of `images_dict`:
`{"page_index": ..., "image_hash": ..., "image": ...}`. -/
structure ImgEntry where
  page_index : Nat
  image_hash : List Bool
  image : Image
deriving Repr, DecidableEq

/-- Python `d[k] = v` on an insertion-ordered dict: replace in place if
the key exists, else append. -/
def dictInsert (d : List (String × ImgEntry)) (k : String) (v : ImgEntry) :
    List (String × ImgEntry) :=
  if d.any (fun p => p.1 == k) then
    d.map (fun p => if p.1 == k then (k, v) else p)
  else
    d ++ [(k, v)]

/-- The `images_dict` building loop (transform.py lines 97-109), keyed
by `image.name_img`. -/
def buildImagesDict (hashFn : String → List Bool) (pages : List Page) :
    List (String × ImgEntry) :=
  pages.foldl
    (fun dict page =>
      page.images.foldl
        (fun dict img =>
          dictInsert dict img.name_img
            ⟨page.index, hashFn img.image_base64, img⟩)
        dict)
    []

/-- One step of the inner pair loop (transform.py lines 117-128): skip
unless `name_img1 < name_img2`; when the Hamming distance is below 5
append each entry to `duplicated_images` unless its name is already in
`img_name_set`. -/
def innerPairStep (p1 : String × ImgEntry)
    (st : List ImgEntry × List String) (p2 : String × ImgEntry) :
    List ImgEntry × List String :=
  if strLtB p1.1.toList p2.1.toList then
    if hamming p1.2.image_hash p2.2.image_hash < 5 then
      let st1 :=
        if st.2.contains p1.2.image.name_img then st
        else (st.1 ++ [p1.2], st.2 ++ [p1.2.image.name_img])
      if st1.2.contains p2.2.image.name_img then st1
      else (st1.1 ++ [p2.2], st1.2 ++ [p2.2.image.name_img])
    else st
  else st

/-- The nested pair loops that produce `duplicated_images`. -/
def collectDuplicates (dict : List (String × ImgEntry)) : List ImgEntry :=
  (dict.foldl (fun st p1 => dict.foldl (innerPairStep p1) st) ([], [])).1

/-- `f"![{image_name}]({image_name})"`. -/
def imageTag (name : String) : String :=
  "![" ++ name ++ "](" ++ name ++ ")"

/-- The paragraph loop of the removal phase (transform.py lines
139-143): rewrite the first paragraph whose content contains the tag
(replace all tag occurrences, then strip) and `break`. -/
def stripTagFirst (tag : String) : List Paragraph → List Paragraph
  | [] => []
  | p :: ps =>
    if strContains p.content tag then
      { p with content := pyStrip (pyReplace p.content tag "") } :: ps
    else
      p :: stripTagFirst tag ps

/-- Update the last page whose `index` matches (the page `page_map`
holds, since the dict comprehension is last-wins); `none` if no page
has the index (`KeyError`) or the update itself fails. -/
def updateLastByIndex (idx : Nat) (f : Page → Option Page) :
    List Page → Option (List Page)
  | [] => Option.none
  | p :: ps =>
    if p.index == idx && !(ps.any (fun q => q.index == idx)) then
      (f p).map (fun p' => p' :: ps)
    else
      (updateLastByIndex idx f ps).map (fun ps' => p :: ps')

/-- One iteration of the removal loop (transform.py lines 131-143):
`page.images.remove(...)` (ValueError — modelled as `none` — if the
image is not on the page) followed by the paragraph-tag cleanup. -/
def applyRemoval (pages : List Page) (e : ImgEntry) : Option (List Page) :=
  updateLastByIndex e.page_index
    (fun page =>
      if page.images.contains e.image then
        Option.some
          { page with
            images := page.images.erase e.image
            paragraphs := stripTagFirst (imageTag e.image.name_img)
              page.paragraphs }
      else
        Option.none)
    pages

/-- `Transform.clean_document` (transform.py lines 90-145), with the
perceptual-hash collaborator as a parameter. -/
def clean_document (hashFn : String → List Bool) (d : Document) :
    Option Document :=
  let dict := buildImagesDict hashFn d.pages
  let dups := collectDuplicates dict
  (dups.foldlM applyRemoval d.pages).map (fun pages => { d with pages := pages })

/-- All images of a page list, in traversal order. -/
def flatImages (pages : List Page) : List Image :=
  (pages.map (fun pg => pg.images)).flatten

/-- The names of all images of a page list. -/
def allImageNames (pages : List Page) : List String :=
  (flatImages pages).map (fun i => i.name_img)

/-- What `images_dict` is when no two images share a name: one entry
per image, in traversal order. -/
def dictSpec (hashFn : String → List Bool) (pages : List Page) :
    List (String × ImgEntry) :=
  (pages.map (fun pg =>
    pg.images.map (fun img =>
      (img.name_img, (⟨pg.index, hashFn img.image_base64, img⟩ : ImgEntry))))).flatten

/-- The page text reconstruction the spec's dedup contract speaks of:
the paragraphs' contents joined with a blank line (also how
`_generate_prompt_parts_split` rebuilds a page's markdown). -/
def reconstructPage (p : Page) : String :=
  joinSep "\n\n" (p.paragraphs.map (fun q => q.content))

/-! ### Zone segmentation (`Transform.split_documents`, transform.py
lines 170-200)

`read_json(self.page_split_path)["parsed"]` is abstracted into the
classifier's group list; each `save_json(doc_zone.model_dump(),
interim_dir / f"{zone}.json")` into an emitted `(zone, Document)`
pair. -/

/-- One classifier group `{zoning, zone, pages}`. -/
structure PageSplitGroup where
  zoning : String
  zone : String
  pages : List Nat
deriving Repr, DecidableEq

/-- `page_map = {page.index: page for page in document.pages}` followed
by lookup: the last page with the given index, if any. -/
def pageMapLookup (pages : List Page) (i : Nat) : Option Page :=
  (pages.filter (fun p => p.index == i)).getLast?

/-- The per-group body of `split_documents`: select the parent pages by
index (`if page_idx in page_map`, so absent indices are silently
skipped), emit nothing when the selection is empty (`continue`), else
emit the `model_copy` with `pages`, `zoning` and `zone` replaced, keyed
by the zone used for the save path. -/
def splitEmit (d : Document) (g : PageSplitGroup) :
    Option (String × Document) :=
  let selected := g.pages.filterMap (fun i => pageMapLookup d.pages i)
  if selected.isEmpty then Option.none
  else
    Option.some (g.zone,
      { d with pages := selected, zoning := Option.some g.zoning,
               zone := Option.some g.zone })

/-- `Transform.split_documents` (transform.py lines 170-200): the loop
over `page_splitting["parsed"]`. -/
def split_documents (d : Document) (groups : List PageSplitGroup) :
    List (String × Document) :=
  groups.foldl
    (fun acc g =>
      match splitEmit d g with
      | Option.none => acc
      | Option.some v => acc ++ [v])
    []

/-- Spec-side page selection for C5: the parent pages whose index
occurs in the group's page-index list, in the group's order. -/
def selectPagesSpec (d : Document) (g : PageSplitGroup) : List Page :=
  g.pages.filterMap (fun i => d.pages.find? (fun p => p.index == i))

/-- Modelled from the spec for the C9 counterexample: the child
Document as the claim describes it, with `modified_at` refreshed to the
run timestamp. -/
def claimChildC9 (d : Document) (g : PageSplitGroup) (now : String) :
    Document :=
  { d with pages := g.pages.filterMap (fun i => pageMapLookup d.pages i)
           zoning := Option.some g.zoning
           zone := Option.some g.zone
           modified_at := Option.some now }

/-! ### Concrete instances used by counterexamples and witnesses -/

def dims0 : Dimensions := ⟨200, 10, 10⟩

def mm0 : ModelMetadata := ⟨"", Option.none, Option.none, []⟩

/-- A one-paragraph page with no images. -/
def textPage (i : Nat) (txt : String) : Page :=
  ⟨i, [⟨1, txt⟩], [], dims0⟩

/-- Base document shell shared by the concrete instances. -/
def baseDoc (pages : List Page) : Document :=
  { pages := pages
    name_of_document := "doc"
    date_of_document := "2024-01-01"
    document_type := DocumentType.PLU
    city := "grenoble"
    zoning := Option.none
    zone := Option.none
    modified_at := Option.none
    model_metadata := mm0 }

/-! C1: the shadowed-name document on which `clean_document` is not even
content-idempotent.  Two images share the name "X" with different pixel
data; the dict keeps only the later one, whose removal (paired with "W")
exposes the earlier "X" to a fresh match with "Z" on the second run. -/

def hashA : List Bool := [false, false, false, false, false, false, false, false]

def hashB : List Bool := [true, true, true, true, true, true, false, false]

def hashC : List Bool := [true, true, true, true, true, true, false, true]

def hashD : List Bool := [false, false, false, false, false, false, false, true]

def shadowHash (s : String) : List Bool :=
  if s == "bx1" then hashA
  else if s == "bx2" then hashB
  else if s == "bw" then hashC
  else hashD

def imgX1 : Image := ⟨"X", 0, 0, 1, 1, "bx1"⟩

def imgX2 : Image := ⟨"X", 0, 0, 1, 1, "bx2"⟩

def imgW : Image := ⟨"W", 0, 0, 1, 1, "bw"⟩

def imgZ : Image := ⟨"Z", 0, 0, 1, 1, "bz"⟩

def shadowDoc : Document :=
  baseDoc [⟨1, [], [imgX1], dims0⟩, ⟨2, [], [imgX2], dims0⟩,
           ⟨3, [], [imgW], dims0⟩, ⟨4, [], [imgZ], dims0⟩]

/-- What the first `clean_document` run on `shadowDoc` writes. -/
def shadowDoc' : Document :=
  baseDoc [⟨1, [], [imgX1], dims0⟩, ⟨2, [], [], dims0⟩,
           ⟨3, [], [], dims0⟩, ⟨4, [], [imgZ], dims0⟩]

/-! C1 witness: globally unique image names, one near-duplicate pair. -/

def wImgA : Image := ⟨"A", 0, 0, 1, 1, "bx2"⟩

def wImgB : Image := ⟨"B", 0, 0, 1, 1, "bw"⟩

def wDoc : Document :=
  baseDoc [⟨1, [⟨1, "![A](A)"⟩], [wImgA], dims0⟩, ⟨2, [], [wImgB], dims0⟩]

def wDoc' : Document :=
  baseDoc [⟨1, [⟨1, ""⟩], [], dims0⟩, ⟨2, [], [], dims0⟩]

/-! C2: two pages with byte-identical reconstructed text, no images. -/

def czDoc : Document := baseDoc [textPage 1 "dup text", textPage 2 "dup text"]

/-! C3: the situation of `test_duplicate_images_removed` — the same
image (same name, same pixel data) on two pages, plus a unique image. -/

def img1a : Image := ⟨"img1.png", 0, 0, 100, 100, "dup_b64"⟩

def img2u : Image := ⟨"img2.png", 0, 0, 100, 100, "uniq_b64"⟩

def cHash3 (s : String) : List Bool :=
  if s == "dup_b64" then hashA else hashB

def cDoc3 : Document :=
  baseDoc [⟨1, [⟨1, "p1"⟩], [img1a, img2u], dims0⟩,
           ⟨2, [⟨1, "p2"⟩], [img1a], dims0⟩]

/-! C4: a removed duplicate image whose tag occurs in two paragraphs of
its page, the first of which becomes empty. -/

def imgA4 : Image := ⟨"imgA.png", 0, 0, 1, 1, "ba"⟩

def imgB4 : Image := ⟨"imgB.png", 0, 0, 1, 1, "bb"⟩

def hash4 (_ : String) : List Bool := hashA

def cDoc4 : Document :=
  baseDoc [⟨1, [⟨1, "![imgA.png](imgA.png)"⟩,
                ⟨2, "![imgA.png](imgA.png) tail"⟩], [imgA4, imgB4], dims0⟩]

def cDoc4' : Document :=
  baseDoc [⟨1, [⟨1, ""⟩, ⟨2, "![imgA.png](imgA.png) tail"⟩], [], dims0⟩]

/-! C5 / C9: a three-page parent and the spec's classifier groups. -/

def parent3 : Document :=
  baseDoc [textPage 1 "one", textPage 2 "two", textPage 3 "three"]

def groups5 : List PageSplitGroup :=
  [⟨"Z1", "UA", [1, 3]⟩, ⟨"Z1", "UB", [2]⟩, ⟨"Z1", "UC", [99]⟩]

/-- The parent for C9, carrying an old `modified_at` stamp. -/
def parent9 : Document :=
  { parent3 with modified_at := Option.some "2024-01-01 00:00:00" }

def group9 : PageSplitGroup := ⟨"Z1", "UA", [1, 3]⟩

/-- What `split_documents parent9 [group9]` actually emits. -/
def child9 : Document :=
  { parent9 with pages := [textPage 1 "one", textPage 3 "three"]
                 zoning := Option.some "Z1"
                 zone := Option.some "UA" }

/-! C7 witness / C10: a document with one table paragraph. -/

def tablePara : Paragraph := ⟨1, "| A | B |\n| --- | --- |\n| 1 | 2 |"⟩

def tDoc : Document := baseDoc [⟨1, [tablePara], [], dims0⟩]

def pdf10 : Pdf := Option.some [("B64", 10, 10)]

/-! C8: a one-page OCR response whose markdown ends in a blank line. -/

def resp8 : OcrResponse :=
  ⟨[⟨"a\n\n", [], dims0⟩], "2024-01-01", DocumentType.PLU,
   Option.none, Option.none, Option.none, Option.none⟩

/-! ## Theorems -/

/-! ### Zone segmentation -/

theorem split_documents_foldl (d : Document) (groups : List PageSplitGroup) :
    ∀ acc : List (String × Document),
    groups.foldl
      (fun acc g =>
        match splitEmit d g with
        | Option.none => acc
        | Option.some v => acc ++ [v])
      acc = acc ++ groups.filterMap (splitEmit d) := by
  induction groups with
  | nil => intro acc; simp
  | cons g gs ih =>
    intro acc
    simp only [List.foldl_cons, List.filterMap_cons]
    cases h : splitEmit d g with
    | none => simp [ih]
    | some v => simp [ih]

theorem split_documents_eq_filterMap (d : Document)
    (groups : List PageSplitGroup) :
    split_documents d groups = groups.filterMap (splitEmit d) := by
  unfold split_documents
  simpa using split_documents_foldl d groups []

theorem pageMapLookup_eq_find (pages : List Page) (i : Nat)
    (h : (pages.map (fun p => p.index)).Nodup) :
    pageMapLookup pages i = pages.find? (fun p => p.index == i) := by
  induction pages with
  | nil => rfl
  | cons p ps ih =>
    simp only [List.map_cons, List.nodup_cons] at h
    unfold pageMapLookup
    by_cases hp : p.index = i
    · have hrest : ps.filter (fun q => q.index == i) = [] := by
        rw [List.filter_eq_nil_iff]
        intro q hq hqi
        exact h.1 (by
          rw [hp]
          rw [beq_iff_eq] at hqi
          rw [← hqi]
          exact List.mem_map_of_mem _ hq)
      rw [List.filter_cons, List.find?_cons]
      simp only [hp, beq_self_eq_true, if_pos]
      rw [hrest]
      rfl
    · rw [List.filter_cons, List.find?_cons]
      have hb : (p.index == i) = false := by
        simp [hp]
      simp only [hb]
      simpa [pageMapLookup] using ih h.2

/-- Claim C5: for every classifier group, the emitted child Document's
pages are exactly the parent pages whose index occurs in the group's
page-index list, in the group's order; indices absent from the parent
are silently skipped; a group whose resolved page subset is empty emits
no Document. -/
theorem claim_C5 (d : Document) (groups : List PageSplitGroup)
    (h : (d.pages.map (fun p => p.index)).Nodup) :
    split_documents d groups = groups.filterMap (fun g =>
      if (selectPagesSpec d g).isEmpty then Option.none
      else
        Option.some (g.zone,
          { d with pages := selectPagesSpec d g,
                   zoning := Option.some g.zoning,
                   zone := Option.some g.zone })) := by
  rw [split_documents_eq_filterMap]
  have hsel : ∀ g : PageSplitGroup,
      g.pages.filterMap (fun i => pageMapLookup d.pages i) =
        selectPagesSpec d g := by
    intro g
    unfold selectPagesSpec
    apply List.filterMap_congr
    intro i _
    exact pageMapLookup_eq_find d.pages i h
  have : splitEmit d = fun g =>
      if (selectPagesSpec d g).isEmpty then Option.none
      else
        Option.some (g.zone,
          { d with pages := selectPagesSpec d g,
                   zoning := Option.some g.zoning,
                   zone := Option.some g.zone }) := by
    funext g
    unfold splitEmit
    rw [hsel g]
  rw [this]

/-- Witness for C5 at the spec's zone-segmentation scenario. -/
theorem claim_C5_witness :
    (parent3.pages.map (fun p => p.index)).Nodup ∧
    split_documents parent3 groups5 = groups5.filterMap (fun g =>
      if (selectPagesSpec parent3 g).isEmpty then Option.none
      else
        Option.some (g.zone,
          { parent3 with pages := selectPagesSpec parent3 g,
                         zoning := Option.some g.zoning,
                         zone := Option.some g.zone })) ∧
    (split_documents parent3 groups5).map
      (fun p => (p.1, p.2.pages.map (fun q => q.index))) =
      [("UA", [1, 3]), ("UB", [2])] :=
  ⟨by decide, claim_C5 parent3 groups5 (by decide), by decide⟩

/-- Claim C9 (amended): each emitted child is derived from the parent by
replacing `pages` with the zone's page subset and setting `zoning` and
`zone` from the group; every other field — `modified_at` included — is
carried through unchanged (the source derives the child with
`model_copy`, never mutating the parent). -/
theorem claim_C9_amended (d : Document) (groups : List PageSplitGroup)
    (z : String) (c : Document)
    (h : (z, c) ∈ split_documents d groups) :
    ∃ g, g ∈ groups ∧ z = g.zone ∧
      c.pages = g.pages.filterMap (fun i => pageMapLookup d.pages i) ∧
      c.pages ≠ [] ∧
      c.zoning = Option.some g.zoning ∧
      c.zone = Option.some g.zone ∧
      c.name_of_document = d.name_of_document ∧
      c.date_of_document = d.date_of_document ∧
      c.document_type = d.document_type ∧
      c.city = d.city ∧
      c.modified_at = d.modified_at ∧
      c.model_metadata = d.model_metadata := by
  rw [split_documents_eq_filterMap] at h
  obtain ⟨g, hg, hemit⟩ := List.mem_filterMap.mp h
  refine ⟨g, hg, ?_⟩
  unfold splitEmit at hemit
  simp only at hemit
  by_cases hempty :
      (g.pages.filterMap (fun i => pageMapLookup d.pages i)).isEmpty = true
  · rw [if_pos hempty] at hemit
    exact absurd hemit (by simp)
  · rw [if_neg hempty] at hemit
    have hzc := Option.some.inj hemit
    have hz : g.zone = z := congrArg Prod.fst hzc
    have hc : ({ d with pages := g.pages.filterMap (fun i => pageMapLookup d.pages i),
                        zoning := Option.some g.zoning,
                        zone := Option.some g.zone } : Document) = c :=
      congrArg Prod.snd hzc
    subst hz
    rw [← hc]
    refine ⟨rfl, rfl, ?_, rfl, rfl, rfl, rfl, rfl, rfl, rfl, rfl⟩
    intro hnil
    have hnil' : List.filterMap (fun i => pageMapLookup d.pages i) g.pages = [] :=
      hnil
    rw [hnil'] at hempty
    exact hempty rfl

/-- Witness for C9 (amended) at a concrete parent and group. -/
theorem claim_C9_amended_witness :
    (("UA", child9) ∈ split_documents parent9 [group9]) ∧
    (∃ g, g ∈ [group9] ∧ "UA" = g.zone ∧
      child9.pages = g.pages.filterMap (fun i => pageMapLookup parent9.pages i) ∧
      child9.pages ≠ [] ∧
      child9.zoning = Option.some g.zoning ∧
      child9.zone = Option.some g.zone ∧
      child9.name_of_document = parent9.name_of_document ∧
      child9.date_of_document = parent9.date_of_document ∧
      child9.document_type = parent9.document_type ∧
      child9.city = parent9.city ∧
      child9.modified_at = parent9.modified_at ∧
      child9.model_metadata = parent9.model_metadata) :=
  ⟨by decide, claim_C9_amended parent9 [group9] "UA" child9 (by decide)⟩

/-- Claim C9 counterexample: `split_documents` does not refresh
`modified_at` — the emitted child carries the parent's old timestamp
verbatim, not the run timestamp the claim describes. -/
theorem claim_C9_counterexample :
    split_documents parent9 [group9] = [("UA", child9)] ∧
    child9.modified_at = Option.some "2024-01-01 00:00:00" ∧
    child9.modified_at = parent9.modified_at ∧
    child9 ≠ claimChildC9 parent9 group9 "2025-06-01 12:00:00" := by
  decide

/-! ### Deduplicator: concrete refutations -/

/-- Claim C1 counterexample.  First conjunct: the OCR Normalizer's
output embeds the run timestamp in `modified_at`, so a second run is
not byte-identical.  Remaining conjuncts: `clean_document` is not even
content-idempotent — on `shadowDoc` (two images named "X" with
different pixel data) the checkpoint the first run writes is changed
again by a second run, because `images_dict` is keyed by image name and
the first run removed the shadowing copy.  No stage consults its output
path: the functions recompute unconditionally. -/
theorem claim_C1_counterexample :
    ocr_response_to_document resp8 "n" "c" Option.none "2024-01-01 00:00:00" ≠
      ocr_response_to_document resp8 "n" "c" Option.none "2024-01-01 00:00:01" ∧
    clean_document shadowHash shadowDoc = Option.some shadowDoc' ∧
    clean_document shadowHash shadowDoc' ≠ Option.some shadowDoc' := by
  refine ⟨by decide, by decide, by decide⟩

/-- Claim C2 counterexample: `clean_document` performs no page-level
deduplication.  Both pages of `czDoc` have byte-identical reconstructed
text, yet the output (for any hash collaborator behaviour on this
image-free document) still contains both pages. -/
theorem claim_C2_counterexample :
    clean_document (fun _ => []) czDoc = Option.some czDoc ∧
    czDoc.pages.map reconstructPage = ["dup text", "dup text"] ∧
    czDoc.pages.length = 2 := by
  refine ⟨by decide, by decide, by decide⟩

/-- Claim C3 failing input evaluated: the same image (same name
`img1.png`, same pixel data, hence perceptual distance 0) sits on pages
1 and 2 of `cDoc3`, exactly as in `test_duplicate_images_removed`.
`clean_document` removes neither copy: `images_dict` is keyed by
`name_img`, so the two copies collapse into one entry and the
`name_img1 >= name_img2` guard skips the self-pair. -/
theorem claim_C3_code_eval :
    hamming (cHash3 img1a.image_base64) (cHash3 img1a.image_base64) = 0 ∧
    clean_document cHash3 cDoc3 = Option.some cDoc3 ∧
    cDoc3.pages.map (fun p => p.images.map (fun i => i.image_base64)) =
      [["dup_b64", "uniq_b64"], ["dup_b64"]] := by
  refine ⟨by decide, by decide, by decide⟩

/-- Claim C4 failing input evaluated: duplicates `imgA.png` and
`imgB.png` (distance 0) are both removed from page 1 of `cDoc4`, whose
two paragraphs both contain `![imgA.png](imgA.png)`.  The paragraph
loop strips only the first matching paragraph (it `break`s) and never
deletes it once empty: the output keeps an empty paragraph and a
paragraph still containing the removed image's reference token. -/
theorem claim_C4_code_eval :
    hamming (hash4 imgA4.image_base64) (hash4 imgB4.image_base64) = 0 ∧
    clean_document hash4 cDoc4 = Option.some cDoc4' ∧
    cDoc4'.pages.map (fun p => p.paragraphs) =
      [[⟨1, ""⟩, ⟨2, "![imgA.png](imgA.png) tail"⟩]] ∧
    strContains "![imgA.png](imgA.png) tail" (imageTag "imgA.png") = true := by
  refine ⟨by decide, by decide, by decide, by decide⟩

/-! ### Deduplicator: structural lemmas -/

theorem updateLast_decomp (idx : Nat) (f : Page → Option Page) :
    ∀ (pages pages' : List Page),
    updateLastByIndex idx f pages = Option.some pages' →
    ∃ l₁ pg pg' l₂, pages = l₁ ++ pg :: l₂ ∧ pages' = l₁ ++ pg' :: l₂ ∧
      f pg = Option.some pg' ∧ pg.index = idx ∧
      ∀ q ∈ l₂, q.index ≠ idx := by
  intro pages
  induction pages with
  | nil => intro pages' h; cases h
  | cons p ps ih =>
    intro pages' h
    unfold updateLastByIndex at h
    by_cases hcond : (p.index == idx && !(ps.any (fun q => q.index == idx))) = true
    · rw [if_pos hcond] at h
      obtain ⟨pg', hf, hp'⟩ := Option.map_eq_some'.mp h
      obtain ⟨hidx, hany⟩ := Bool.and_eq_true_iff.mp hcond
      refine ⟨[], p, pg', ps, rfl, hp'.symm ▸ rfl, hf, beq_iff_eq.mp hidx, ?_⟩
      intro q hq hqi
      have : ps.any (fun q => q.index == idx) = true :=
        List.any_eq_true.mpr ⟨q, hq, beq_iff_eq.mpr hqi⟩
      rw [this] at hany
      cases hany
    · rw [if_neg hcond] at h
      obtain ⟨ps', hps', hp'⟩ := Option.map_eq_some'.mp h
      obtain ⟨l₁, pg, pg', l₂, h1, h2, h3, h4, h5⟩ := ih ps' hps'
      exact ⟨p :: l₁, pg, pg', l₂, by rw [h1]; rfl, by rw [← hp', h2]; rfl,
        h3, h4, h5⟩

theorem applyRemoval_some (pages pages' : List Page) (e : ImgEntry)
    (h : applyRemoval pages e = Option.some pages') :
    ∃ l₁ pg l₂, pages = l₁ ++ pg :: l₂ ∧
      pages' = l₁ ++
        ({ pg with images := pg.images.erase e.image,
                   paragraphs := stripTagFirst (imageTag e.image.name_img)
                     pg.paragraphs } : Page) :: l₂ ∧
      e.image ∈ pg.images ∧ pg.index = e.page_index ∧
      ∀ q ∈ l₂, q.index ≠ e.page_index := by
  unfold applyRemoval at h
  obtain ⟨l₁, pg, pg', l₂, h1, h2, h3, h4, h5⟩ :=
    updateLast_decomp e.page_index _ pages pages' h
  by_cases hc : pg.images.contains e.image = true
  · rw [if_pos hc] at h3
    refine ⟨l₁, pg, l₂, h1, ?_, by simpa using hc, h4, h5⟩
    rw [h2, ← Option.some.inj h3]
  · rw [if_neg hc] at h3
    cases h3

theorem removalFold_proj (dups : List ImgEntry) :
    ∀ (pages pages' : List Page),
    dups.foldlM applyRemoval pages = Option.some pages' →
    pages'.map (fun p => (p.index, p.dimensions)) =
      pages.map (fun p => (p.index, p.dimensions)) := by
  induction dups with
  | nil =>
    intro pages pages' h
    rw [Option.some.inj h]
  | cons e es ih =>
    intro pages pages' h
    rw [List.foldlM_cons] at h
    cases hm : applyRemoval pages e with
    | none => rw [hm] at h; cases h
    | some mid =>
      rw [hm] at h
      have hmid : es.foldlM applyRemoval mid = Option.some pages' := h
      have hstep :
          mid.map (fun p => (p.index, p.dimensions)) =
            pages.map (fun p => (p.index, p.dimensions)) := by
        obtain ⟨l₁, pg, l₂, h1, h2, _, _, _⟩ :=
          applyRemoval_some pages mid e hm
        rw [h1, h2]
        simp
      rw [ih mid pages' hmid, hstep]

theorem charToNat_inj {a b : Char} (h : a.toNat = b.toNat) : a = b := by
  have ha := Char.ofNat_toNat a
  have hb := Char.ofNat_toNat b
  rw [← ha, h, hb]

theorem strLtB_irrefl : ∀ as : List Char, strLtB as as = false := by
  intro as
  induction as with
  | nil => rfl
  | cons a l ih =>
    unfold strLtB
    simp [ih]

theorem strLtB_total : ∀ as bs : List Char, as ≠ bs →
    strLtB as bs = true ∨ strLtB bs as = true := by
  intro as
  induction as with
  | nil =>
    intro bs hne
    cases bs with
    | nil => exact absurd rfl hne
    | cons b l => left; rfl
  | cons a l ih =>
    intro bs hne
    cases bs with
    | nil => right; rfl
    | cons b m =>
      rcases Nat.lt_trichotomy a.toNat b.toNat with hlt | heq | hgt
      · left
        unfold strLtB
        simp [hlt]
      · have hab : a = b := charToNat_inj heq
        subst hab
        have hlm : l ≠ m := by
          intro hl
          exact hne (by rw [hl])
        rcases ih m hlm with h1 | h1
        · left
          unfold strLtB
          simp [h1]
        · right
          unfold strLtB
          simp [h1]
      · right
        unfold strLtB
        simp [hgt, Nat.ne_of_gt hgt, Nat.lt_asymm hgt]

theorem strLtB_ne {as bs : List Char} (h : strLtB as bs = true) : as ≠ bs := by
  intro he
  rw [he, strLtB_irrefl] at h
  cases h

theorem string_toList_ne {s t : String} (h : s ≠ t) : s.toList ≠ t.toList := by
  intro he
  exact h (String.ext he)

theorem hamming_comm : ∀ a b : List Bool, hamming a b = hamming b a := by
  intro a
  induction a with
  | nil => intro b; cases b <;> rfl
  | cons x xs ih =>
    intro b
    cases b with
    | nil => rfl
    | cons y ys =>
      unfold hamming
      simp only [List.zipWith_cons_cons, List.count_cons]
      unfold hamming at ih
      rw [ih ys]
      have : (x != y) = (y != x) := by
        cases x <;> cases y <;> rfl
      rw [this]

/-! Structure of `images_dict` when no two images share a name. -/

theorem allImageNames_cons (pg : Page) (pages : List Page) :
    allImageNames (pg :: pages) =
      pg.images.map (fun i => i.name_img) ++ allImageNames pages := by
  simp [allImageNames, flatImages]

theorem dictInsert_fresh (d : List (String × ImgEntry)) (k : String)
    (v : ImgEntry) (h : k ∉ d.map Prod.fst) :
    dictInsert d k v = d ++ [(k, v)] := by
  unfold dictInsert
  have : d.any (fun p => p.1 == k) = false := by
    rw [List.any_eq_false]
    intro p hp hpk
    exact h (by
      rw [beq_iff_eq] at hpk
      rw [← hpk]
      exact List.mem_map_of_mem _ hp)
  simp [this]

theorem buildImagesDict_inner (hashFn : String → List Bool) (pgidx : Nat) :
    ∀ (imgs : List Image) (d : List (String × ImgEntry)),
    (d.map Prod.fst ++ imgs.map (fun i => i.name_img)).Nodup →
    imgs.foldl
      (fun dict img =>
        dictInsert dict img.name_img ⟨pgidx, hashFn img.image_base64, img⟩)
      d =
    d ++ imgs.map (fun img =>
      (img.name_img, (⟨pgidx, hashFn img.image_base64, img⟩ : ImgEntry))) := by
  intro imgs
  induction imgs with
  | nil => intro d _; simp
  | cons img rest ih =>
    intro d hnd
    rw [List.foldl_cons]
    have hfresh : img.name_img ∉ d.map Prod.fst := by
      intro hmem
      rw [List.map_cons, List.nodup_append] at hnd
      exact hnd.2.2 hmem (List.mem_cons_self _ _)
    rw [dictInsert_fresh d img.name_img _ hfresh]
    have hnd' : ((d ++ [(img.name_img,
        (⟨pgidx, hashFn img.image_base64, img⟩ : ImgEntry))]).map Prod.fst ++
        rest.map (fun i => i.name_img)).Nodup := by
      rw [List.map_append]
      rw [List.append_assoc]
      simpa [List.map_cons] using hnd
    rw [ih _ hnd']
    simp

theorem buildImagesDict_eq_spec (hashFn : String → List Bool) :
    ∀ (pages : List Page), (allImageNames pages).Nodup →
    buildImagesDict hashFn pages = dictSpec hashFn pages := by
  have main : ∀ (pages : List Page) (d : List (String × ImgEntry)),
      (d.map Prod.fst ++ allImageNames pages).Nodup →
      pages.foldl
        (fun dict page =>
          page.images.foldl
            (fun dict img =>
              dictInsert dict img.name_img
                ⟨page.index, hashFn img.image_base64, img⟩)
            dict)
        d = d ++ dictSpec hashFn pages := by
    intro pages
    induction pages with
    | nil => intro d _; simp [dictSpec]
    | cons pg rest ih =>
      intro d hnd
      rw [List.foldl_cons]
      rw [allImageNames_cons] at hnd
      have hprefix : (d.map Prod.fst ++
          pg.images.map (fun i => i.name_img)).Nodup := by
        refine List.Nodup.sublist ?_ hnd
        rw [← List.append_assoc]
        exact List.sublist_append_left _ _
      rw [buildImagesDict_inner hashFn pg.index pg.images d hprefix]
      have hnd' : ((d ++ pg.images.map (fun img =>
          (img.name_img,
            (⟨pg.index, hashFn img.image_base64, img⟩ : ImgEntry)))).map
            Prod.fst ++ allImageNames rest).Nodup := by
        rw [List.map_append, List.map_map]
        rw [List.append_assoc]
        have : (Prod.fst ∘ fun img : Image =>
            (img.name_img,
              (⟨pg.index, hashFn img.image_base64, img⟩ : ImgEntry))) =
            fun i : Image => i.name_img := rfl
        rw [this]
        exact hnd
      rw [ih _ hnd']
      simp [dictSpec, List.append_assoc]
  intro pages h
  unfold buildImagesDict
  have := main pages [] (by simpa using h)
  simpa using this

theorem dictSpec_mem (hashFn : String → List Bool) (pages : List Page)
    (p : String × ImgEntry) (h : p ∈ dictSpec hashFn pages) :
    p.1 = p.2.image.name_img ∧
    p.2.image_hash = hashFn p.2.image.image_base64 ∧
    p.2.image ∈ flatImages pages := by
  unfold dictSpec at h
  rw [List.mem_flatten] at h
  obtain ⟨l, hl, hpl⟩ := h
  rw [List.mem_map] at hl
  obtain ⟨pg, hpg, hlpg⟩ := hl
  rw [← hlpg, List.mem_map] at hpl
  obtain ⟨img, himg, hp⟩ := hpl
  rw [← hp]
  refine ⟨rfl, rfl, ?_⟩
  unfold flatImages
  rw [List.mem_flatten]
  exact ⟨pg.images, List.mem_map_of_mem _ hpg, himg⟩

theorem dictSpec_of_flat (hashFn : String → List Bool) (pages : List Page)
    (x : Image) (h : x ∈ flatImages pages) :
    ∃ pi, (x.name_img, (⟨pi, hashFn x.image_base64, x⟩ : ImgEntry)) ∈
      dictSpec hashFn pages := by
  unfold flatImages at h
  rw [List.mem_flatten] at h
  obtain ⟨l, hl, hxl⟩ := h
  rw [List.mem_map] at hl
  obtain ⟨pg, hpg, hlpg⟩ := hl
  refine ⟨pg.index, ?_⟩
  unfold dictSpec
  rw [List.mem_flatten]
  refine ⟨pg.images.map (fun img =>
    (img.name_img, (⟨pg.index, hashFn img.image_base64, img⟩ : ImgEntry))),
    List.mem_map_of_mem _ hpg, ?_⟩
  rw [← hlpg] at hxl
  exact List.mem_map_of_mem _ hxl

theorem dictSpec_keys (hashFn : String → List Bool) (pages : List Page) :
    (dictSpec hashFn pages).map Prod.fst = allImageNames pages := by
  unfold dictSpec allImageNames flatImages
  rw [List.map_flatten, List.map_flatten, List.map_map, List.map_map]
  apply congrArg List.flatten
  apply List.map_congr_left
  intro pg _
  simp [Function.comp, List.map_map]

/-! The pair loops of `clean_document`. -/

theorem innerPairStep_cases (p1 p2 : String × ImgEntry)
    (st : List ImgEntry × List String) :
    innerPairStep p1 st p2 = st ∨
    innerPairStep p1 st p2 =
      (st.1 ++ [p1.2], st.2 ++ [p1.2.image.name_img]) ∨
    innerPairStep p1 st p2 =
      (st.1 ++ [p2.2], st.2 ++ [p2.2.image.name_img]) ∨
    innerPairStep p1 st p2 =
      (st.1 ++ [p1.2] ++ [p2.2],
       st.2 ++ [p1.2.image.name_img] ++ [p2.2.image.name_img]) := by
  unfold innerPairStep
  by_cases h1 : strLtB p1.1.toList p2.1.toList = true
  · rw [if_pos h1]
    by_cases h2 : hamming p1.2.image_hash p2.2.image_hash < 5
    · rw [if_pos h2]
      by_cases h3 : st.2.contains p1.2.image.name_img = true
      · rw [if_pos h3]
        by_cases h4 : st.2.contains p2.2.image.name_img = true
        · rw [if_pos h4]
          left; rfl
        · rw [if_neg h4]
          right; right; left; rfl
      · rw [if_neg h3]
        by_cases h4 : ((st.1 ++ [p1.2], st.2 ++ [p1.2.image.name_img]).2).contains
            p2.2.image.name_img = true
        · rw [if_pos h4]
          right; left; rfl
        · rw [if_neg h4]
          right; right; right; rfl
    · rw [if_neg h2]
      left; rfl
  · rw [if_neg h1]
    left; rfl

theorem innerPairStep_names_mono (p1 p2 : String × ImgEntry)
    (st : List ImgEntry × List String) (n : String) (h : n ∈ st.2) :
    n ∈ (innerPairStep p1 st p2).2 := by
  rcases innerPairStep_cases p1 p2 st with h' | h' | h' | h' <;>
    rw [h'] <;> simp [h]

theorem innerFold_names_mono (p1 : String × ImgEntry)
    (l : List (String × ImgEntry)) :
    ∀ (st : List ImgEntry × List String) (n : String), n ∈ st.2 →
    n ∈ (l.foldl (innerPairStep p1) st).2 := by
  induction l with
  | nil => intro st n h; exact h
  | cons q rest ih =>
    intro st n h
    rw [List.foldl_cons]
    exact ih _ n (innerPairStep_names_mono p1 q st n h)

theorem outerFold_names_mono (dict l : List (String × ImgEntry)) :
    ∀ (st : List ImgEntry × List String) (n : String), n ∈ st.2 →
    n ∈ (l.foldl (fun st p1 => dict.foldl (innerPairStep p1) st) st).2 := by
  induction l with
  | nil => intro st n h; exact h
  | cons q rest ih =>
    intro st n h
    rw [List.foldl_cons]
    exact ih _ n (innerFold_names_mono q dict st n h)

theorem innerPairStep_complete (p1 p2 : String × ImgEntry)
    (st : List ImgEntry × List String)
    (h1 : strLtB p1.1.toList p2.1.toList = true)
    (h2 : hamming p1.2.image_hash p2.2.image_hash < 5) :
    p1.2.image.name_img ∈ (innerPairStep p1 st p2).2 ∧
    p2.2.image.name_img ∈ (innerPairStep p1 st p2).2 := by
  unfold innerPairStep
  rw [if_pos h1, if_pos h2]
  by_cases h3 : st.2.contains p1.2.image.name_img = true
  · rw [if_pos h3]
    by_cases h4 : st.2.contains p2.2.image.name_img = true
    · rw [if_pos h4]
      exact ⟨by simpa using h3, by simpa using h4⟩
    · rw [if_neg h4]
      refine ⟨?_, by simp⟩
      show p1.2.image.name_img ∈ st.2 ++ [p2.2.image.name_img]
      rw [List.mem_append]
      left
      simpa using h3
  · rw [if_neg h3]
    by_cases h4 : ((st.1 ++ [p1.2], st.2 ++ [p1.2.image.name_img]).2).contains
        p2.2.image.name_img = true
    · rw [if_pos h4]
      refine ⟨by simp, ?_⟩
      show p2.2.image.name_img ∈ st.2 ++ [p1.2.image.name_img]
      simpa using h4
    · rw [if_neg h4]
      constructor
      · show p1.2.image.name_img ∈
          (st.2 ++ [p1.2.image.name_img]) ++ [p2.2.image.name_img]
        rw [List.mem_append]
        left
        simp
      · show p2.2.image.name_img ∈
          (st.2 ++ [p1.2.image.name_img]) ++ [p2.2.image.name_img]
        simp

theorem innerFold_complete (p1 p2 : String × ImgEntry)
    (l : List (String × ImgEntry)) (hp2 : p2 ∈ l)
    (h1 : strLtB p1.1.toList p2.1.toList = true)
    (h2 : hamming p1.2.image_hash p2.2.image_hash < 5) :
    ∀ st : List ImgEntry × List String,
    p1.2.image.name_img ∈ (l.foldl (innerPairStep p1) st).2 ∧
    p2.2.image.name_img ∈ (l.foldl (innerPairStep p1) st).2 := by
  induction l with
  | nil => cases hp2
  | cons q rest ih =>
    intro st
    rw [List.foldl_cons]
    rcases List.mem_cons.mp hp2 with rfl | hmem
    · obtain ⟨ha, hb⟩ := innerPairStep_complete p1 p2 st h1 h2
      exact ⟨innerFold_names_mono p1 rest _ _ ha,
        innerFold_names_mono p1 rest _ _ hb⟩
    · exact ih hmem _

theorem outerFold_complete (dict : List (String × ImgEntry))
    (p1 p2 : String × ImgEntry) (hp2 : p2 ∈ dict)
    (h1 : strLtB p1.1.toList p2.1.toList = true)
    (h2 : hamming p1.2.image_hash p2.2.image_hash < 5) :
    ∀ (l : List (String × ImgEntry)), p1 ∈ l →
    ∀ st : List ImgEntry × List String,
    p1.2.image.name_img ∈
      (l.foldl (fun st p => dict.foldl (innerPairStep p) st) st).2 ∧
    p2.2.image.name_img ∈
      (l.foldl (fun st p => dict.foldl (innerPairStep p) st) st).2 := by
  intro l
  induction l with
  | nil => intro h; cases h
  | cons q rest ih =>
    intro hp1 st
    rw [List.foldl_cons]
    rcases List.mem_cons.mp hp1 with rfl | hmem
    · obtain ⟨ha, hb⟩ := innerFold_complete p1 p2 dict hp2 h1 h2 st
      exact ⟨outerFold_names_mono dict rest _ _ ha,
        outerFold_names_mono dict rest _ _ hb⟩
    · exact ih hmem _

theorem innerFold_inv (dict : List (String × ImgEntry))
    (p1 : String × ImgEntry) (hp1 : p1 ∈ dict)
    (l : List (String × ImgEntry)) (hsub : ∀ x ∈ l, x ∈ dict) :
    ∀ st : List ImgEntry × List String,
    st.2 = st.1.map (fun e => e.image.name_img) →
    (∀ e ∈ st.1, ∃ p ∈ dict, e = p.2) →
    ((l.foldl (innerPairStep p1) st).2 =
      (l.foldl (innerPairStep p1) st).1.map (fun e => e.image.name_img) ∧
    ∀ e ∈ (l.foldl (innerPairStep p1) st).1, ∃ p ∈ dict, e = p.2) := by
  induction l with
  | nil => intro st h1 h2; exact ⟨h1, h2⟩
  | cons q rest ih =>
    intro st h1 h2
    rw [List.foldl_cons]
    have hq : q ∈ dict := hsub q (List.mem_cons_self _ _)
    have hsub' : ∀ x ∈ rest, x ∈ dict :=
      fun x hx => hsub x (List.mem_cons_of_mem _ hx)
    refine ih hsub' _ ?_ ?_
    · rcases innerPairStep_cases p1 q st with h' | h' | h' | h' <;>
        rw [h'] <;> simp [h1]
    · rcases innerPairStep_cases p1 q st with h' | h' | h' | h' <;> rw [h']
      · exact h2
      · intro e he
        rcases List.mem_append.mp he with he | he
        · exact h2 e he
        · exact ⟨p1, hp1, by simpa using he⟩
      · intro e he
        rcases List.mem_append.mp he with he | he
        · exact h2 e he
        · exact ⟨q, hq, by simpa using he⟩
      · intro e he
        rcases List.mem_append.mp he with he | he
        · rcases List.mem_append.mp he with he | he
          · exact h2 e he
          · exact ⟨p1, hp1, by simpa using he⟩
        · exact ⟨q, hq, by simpa using he⟩

theorem outerFold_inv (dict : List (String × ImgEntry))
    (l : List (String × ImgEntry)) (hsub : ∀ x ∈ l, x ∈ dict) :
    ∀ st : List ImgEntry × List String,
    st.2 = st.1.map (fun e => e.image.name_img) →
    (∀ e ∈ st.1, ∃ p ∈ dict, e = p.2) →
    ((l.foldl (fun st p => dict.foldl (innerPairStep p) st) st).2 =
      (l.foldl (fun st p => dict.foldl (innerPairStep p) st) st).1.map
        (fun e => e.image.name_img) ∧
    ∀ e ∈ (l.foldl (fun st p => dict.foldl (innerPairStep p) st) st).1,
      ∃ p ∈ dict, e = p.2) := by
  induction l with
  | nil => intro st h1 h2; exact ⟨h1, h2⟩
  | cons q rest ih =>
    intro st h1 h2
    rw [List.foldl_cons]
    have hq : q ∈ dict := hsub q (List.mem_cons_self _ _)
    have hsub' : ∀ x ∈ rest, x ∈ dict :=
      fun x hx => hsub x (List.mem_cons_of_mem _ hx)
    obtain ⟨h1', h2'⟩ :=
      innerFold_inv dict q hq dict (fun x hx => hx) st h1 h2
    exact ih hsub' _ h1' h2'

theorem innerPairStep_id (p1 p2 : String × ImgEntry)
    (st : List ImgEntry × List String)
    (h : strLtB p1.1.toList p2.1.toList = true →
      ¬ hamming p1.2.image_hash p2.2.image_hash < 5) :
    innerPairStep p1 st p2 = st := by
  unfold innerPairStep
  by_cases h1 : strLtB p1.1.toList p2.1.toList = true
  · rw [if_pos h1, if_neg (h h1)]
  · rw [if_neg h1]

theorem innerFold_id (p1 : String × ImgEntry)
    (l : List (String × ImgEntry))
    (h : ∀ p2 ∈ l, strLtB p1.1.toList p2.1.toList = true →
      ¬ hamming p1.2.image_hash p2.2.image_hash < 5) :
    ∀ st, l.foldl (innerPairStep p1) st = st := by
  induction l with
  | nil => intro st; rfl
  | cons q rest ih =>
    intro st
    rw [List.foldl_cons,
      innerPairStep_id p1 q st (h q (List.mem_cons_self _ _))]
    exact ih (fun p2 hp2 => h p2 (List.mem_cons_of_mem _ hp2)) st

theorem collect_empty (dict : List (String × ImgEntry))
    (h : ∀ p1 ∈ dict, ∀ p2 ∈ dict,
      strLtB p1.1.toList p2.1.toList = true →
      ¬ hamming p1.2.image_hash p2.2.image_hash < 5) :
    collectDuplicates dict = [] := by
  unfold collectDuplicates
  have main : ∀ (l : List (String × ImgEntry)), (∀ x ∈ l, x ∈ dict) →
      ∀ st, l.foldl (fun st p => dict.foldl (innerPairStep p) st) st = st := by
    intro l
    induction l with
    | nil => intro _ st; rfl
    | cons q rest ih =>
      intro hsub st
      rw [List.foldl_cons,
        innerFold_id q dict (h q (hsub q (List.mem_cons_self _ _))) st]
      exact ih (fun x hx => hsub x (List.mem_cons_of_mem _ hx)) st
  rw [main dict (fun x hx => hx) ([], [])]

theorem nodup_map_inj {α β : Type} (f : α → β) :
    ∀ (l : List α), (l.map f).Nodup →
    ∀ a ∈ l, ∀ b ∈ l, f a = f b → a = b := by
  intro l
  induction l with
  | nil => intro _ a ha; cases ha
  | cons x xs ih =>
    intro hnd a ha b hb hfab
    rw [List.map_cons, List.nodup_cons] at hnd
    rcases List.mem_cons.mp ha with rfl | ha' <;>
      rcases List.mem_cons.mp hb with rfl | hb'
    · rfl
    · exfalso
      apply hnd.1
      rw [hfab]
      exact List.mem_map_of_mem f hb'
    · exfalso
      apply hnd.1
      rw [← hfab]
      exact List.mem_map_of_mem f ha'
    · exact ih hnd.2 a ha' b hb' hfab

/-- Every image that belongs to a matched pair (distinct names,
perceptual distance below 5) of a name-unique dict ends up in
`duplicated_images`. -/
theorem collect_complete (dict : List (String × ImgEntry))
    (hkeys : ∀ p ∈ dict, p.1 = p.2.image.name_img)
    (hnd : (dict.map Prod.fst).Nodup)
    (p1 p2 : String × ImgEntry) (hp1 : p1 ∈ dict) (hp2 : p2 ∈ dict)
    (h1 : strLtB p1.1.toList p2.1.toList = true)
    (h2 : hamming p1.2.image_hash p2.2.image_hash < 5) :
    p1.2 ∈ collectDuplicates dict ∧ p2.2 ∈ collectDuplicates dict := by
  obtain ⟨ha, hb⟩ :=
    outerFold_complete dict p1 p2 hp2 h1 h2 dict hp1 ([], [])
  obtain ⟨hnames, hsound⟩ :=
    outerFold_inv dict dict (fun x hx => hx) ([], []) rfl (by intro e he; cases he)
  have resolve : ∀ p ∈ dict, p.2.image.name_img ∈
      (dict.foldl (fun st q => dict.foldl (innerPairStep q) st) ([], [])).2 →
      p.2 ∈ collectDuplicates dict := by
    intro p hp hmem
    rw [hnames] at hmem
    obtain ⟨e, he, hename⟩ := List.mem_map.mp hmem
    obtain ⟨q, hq, rfl⟩ := hsound e he
    have : q = p := by
      apply nodup_map_inj Prod.fst dict hnd q hq p hp
      rw [hkeys q hq, hkeys p hp]
      exact hename
    rw [← this]
    exact he
  exact ⟨resolve p1 hp1 ha, resolve p2 hp2 hb⟩

/-! Image counts through the removal loop. -/

theorem flatImages_append (l₁ l₂ : List Page) :
    flatImages (l₁ ++ l₂) = flatImages l₁ ++ flatImages l₂ := by
  simp [flatImages]

theorem flatImages_cons (pg : Page) (pages : List Page) :
    flatImages (pg :: pages) = pg.images ++ flatImages pages := by
  simp [flatImages]

theorem applyRemoval_count (pages pages' : List Page) (e : ImgEntry)
    (h : applyRemoval pages e = Option.some pages') (x : Image) :
    (flatImages pages').count x + (if x = e.image then 1 else 0) =
      (flatImages pages).count x := by
  obtain ⟨l₁, pg, l₂, h1, h2, hmem, _, _⟩ := applyRemoval_some pages pages' e h
  rw [h1, h2, flatImages_append, flatImages_append, flatImages_cons,
    flatImages_cons]
  simp only [List.count_append]
  by_cases hx : x = e.image
  · subst hx
    rw [List.count_erase_self]
    have hpos : 0 < pg.images.count e.image := List.count_pos_iff.mpr hmem
    simp only [if_true, eq_self_iff_true]
    omega
  · rw [List.count_erase_of_ne hx]
    simp [hx]

theorem removalFold_count (dups : List ImgEntry) :
    ∀ (pages pages' : List Page),
    dups.foldlM applyRemoval pages = Option.some pages' →
    ∀ x : Image,
    (flatImages pages').count x + dups.countP (fun e => e.image == x) =
      (flatImages pages).count x := by
  induction dups with
  | nil =>
    intro pages pages' h x
    rw [Option.some.inj h]
    simp
  | cons e es ih =>
    intro pages pages' h x
    rw [List.foldlM_cons] at h
    cases hm : applyRemoval pages e with
    | none => rw [hm] at h; cases h
    | some mid =>
      rw [hm] at h
      have h' : es.foldlM applyRemoval mid = Option.some pages' := h
      have hstep := applyRemoval_count pages mid e hm x
      have hih := ih mid pages' h' x
      rw [List.countP_cons]
      have hbeq : (if (e.image == x) = true then 1 else 0) =
          (if x = e.image then (1 : Nat) else 0) := by
        by_cases hx : x = e.image
        · simp [hx]
        · have : ¬ e.image = x := fun he => hx he.symm
          simp [hx, this]
      rw [hbeq]
      omega

theorem applyRemoval_sublist (pages pages' : List Page) (e : ImgEntry)
    (h : applyRemoval pages e = Option.some pages') :
    List.Sublist (flatImages pages') (flatImages pages) := by
  obtain ⟨l₁, pg, l₂, h1, h2, _, _, _⟩ := applyRemoval_some pages pages' e h
  rw [h1, h2, flatImages_append, flatImages_append, flatImages_cons,
    flatImages_cons]
  apply (List.append_sublist_append_left (flatImages l₁)).mpr
  exact (List.append_sublist_append_right (flatImages l₂)).mpr
    (List.erase_sublist e.image pg.images)

theorem removalFold_sublist (dups : List ImgEntry) :
    ∀ (pages pages' : List Page),
    dups.foldlM applyRemoval pages = Option.some pages' →
    List.Sublist (flatImages pages') (flatImages pages) := by
  induction dups with
  | nil =>
    intro pages pages' h
    rw [Option.some.inj h]
  | cons e es ih =>
    intro pages pages' h
    rw [List.foldlM_cons] at h
    cases hm : applyRemoval pages e with
    | none => rw [hm] at h; cases h
    | some mid =>
      rw [hm] at h
      exact List.Sublist.trans (ih mid pages' h)
        (applyRemoval_sublist pages mid e hm)

theorem count_le_count_map {α β : Type} [DecidableEq α] [DecidableEq β]
    (f : α → β) (l : List α) (a : α) :
    l.count a ≤ (l.map f).count (f a) := by
  induction l with
  | nil => simp
  | cons x xs ih =>
    rw [List.count_cons, List.map_cons, List.count_cons]
    have h1 : (if x == a then (1 : Nat) else 0) ≤
        (if f x == f a then (1 : Nat) else 0) := by
      by_cases h : (x == a) = true
      · have hax : x = a := eq_of_beq h
        simp [h, hax]
      · simp [h]
    omega

/-- When `clean_document` succeeds on a document with no duplicate
pairs in its dict, it writes the document back unchanged. -/
theorem clean_of_no_dups (hashFn : String → List Bool) (dd : Document)
    (hempty : collectDuplicates (buildImagesDict hashFn dd.pages) = []) :
    clean_document hashFn dd = Option.some dd := by
  unfold clean_document
  simp only []
  rw [hempty]
  rfl

/-- Claim C1 (amended): no stage consults an existing output or
short-circuits — each invocation recomputes and overwrites its output
path unconditionally.  What does hold: (a) rerunning the OCR Normalizer
on the same input changes only the `modified_at` timestamp of the
output, and (b) rerunning the Deduplicator on the checkpoint its first
run wrote rewrites byte-identical output, provided image names are
globally unique across the document (with duplicate names the
counterexample shows even this fails); the Zone Segmenter is a pure
function of its two input files, so rerunning it rewrites identical
bytes. -/
theorem claim_C1_amended :
    (∀ (resp : OcrResponse) (n c : String) (z : Option String)
      (t₁ t₂ : String),
      ocr_response_to_document resp n c z t₂ =
        { ocr_response_to_document resp n c z t₁ with
          modified_at := Option.some t₂ }) ∧
    (∀ (hashFn : String → List Bool) (d d' : Document),
      (allImageNames d.pages).Nodup →
      clean_document hashFn d = Option.some d' →
      clean_document hashFn d' = Option.some d') := by
  constructor
  · intro resp n c z t₁ t₂
    rfl
  · intro hashFn d d' hn h
    unfold clean_document at h
    simp only [] at h
    cases hm : (collectDuplicates (buildImagesDict hashFn d.pages)).foldlM
        applyRemoval d.pages with
    | none => rw [hm] at h; cases h
    | some P' =>
      rw [hm] at h
      simp only [Option.map_some'] at h
      have hd : ({ d with pages := P' } : Document) = d' := Option.some.inj h
      have hdict : buildImagesDict hashFn d.pages = dictSpec hashFn d.pages :=
        buildImagesDict_eq_spec hashFn d.pages hn
      rw [hdict] at hm
      have hsub : List.Sublist (flatImages P') (flatImages d.pages) :=
        removalFold_sublist _ _ _ hm
      have hnP : (allImageNames P').Nodup :=
        List.Nodup.sublist (List.Sublist.map _ hsub) hn
      have hpair : ∀ x ∈ flatImages P', ∀ y ∈ flatImages P',
          x.name_img ≠ y.name_img →
          ¬ hamming (hashFn x.image_base64) (hashFn y.image_base64) < 5 := by
        intro x hx y hy hne hdist
        have hxd : x ∈ flatImages d.pages := hsub.subset hx
        have hyd : y ∈ flatImages d.pages := hsub.subset hy
        obtain ⟨pix, hpx⟩ := dictSpec_of_flat hashFn d.pages x hxd
        obtain ⟨piy, hpy⟩ := dictSpec_of_flat hashFn d.pages y hyd
        have hkeys : ∀ p ∈ dictSpec hashFn d.pages,
            p.1 = p.2.image.name_img :=
          fun p hp => (dictSpec_mem hashFn d.pages p hp).1
        have hknd : ((dictSpec hashFn d.pages).map Prod.fst).Nodup := by
          rw [dictSpec_keys]
          exact hn
        have hneL : x.name_img.toList ≠ y.name_img.toList :=
          string_toList_ne hne
        have hx_in_dups : (⟨pix, hashFn x.image_base64, x⟩ : ImgEntry) ∈
            collectDuplicates (dictSpec hashFn d.pages) := by
          rcases strLtB_total _ _ hneL with hlt | hlt
          · exact (collect_complete _ hkeys hknd _ _ hpx hpy hlt hdist).1
          · have hdist' : hamming (hashFn y.image_base64)
                (hashFn x.image_base64) < 5 := by
              rw [hamming_comm]
              exact hdist
            exact (collect_complete _ hkeys hknd _ _ hpy hpx hlt hdist').2
        have hcnt := removalFold_count _ _ _ hm x
        have hx1 : 0 < (flatImages P').count x := List.count_pos_iff.mpr hx
        have hdup1 : 0 < (collectDuplicates
            (dictSpec hashFn d.pages)).countP (fun e => e.image == x) := by
          refine List.countP_pos_iff.mpr ⟨_, hx_in_dups, ?_⟩
          simp
        have hmapped := count_le_count_map (fun i => i.name_img)
          (flatImages d.pages) x
        have hone : ((flatImages d.pages).map
            (fun i => i.name_img)).count x.name_img ≤ 1 := by
          have heq : allImageNames d.pages =
              (flatImages d.pages).map (fun i => i.name_img) := rfl
          rw [← heq]
          exact List.nodup_iff_count_le_one.mp hn x.name_img
        omega
      have hd'pages : d'.pages = P' := by rw [← hd]
      apply clean_of_no_dups
      rw [hd'pages, buildImagesDict_eq_spec hashFn P' hnP]
      apply collect_empty
      intro p1 hp1 p2 hp2 hlt hdist
      obtain ⟨hk1, hh1, hf1⟩ := dictSpec_mem hashFn P' p1 hp1
      obtain ⟨hk2, hh2, hf2⟩ := dictSpec_mem hashFn P' p2 hp2
      have hne : p1.2.image.name_img ≠ p2.2.image.name_img := by
        intro he
        apply strLtB_ne hlt
        rw [hk1, hk2, he]
      apply hpair _ hf1 _ hf2 hne
      rw [← hh1, ← hh2]
      exact hdist

/-- Witness for C1 (amended): a concrete document with unique image
names whose cleaning is a fixed point on the second run. -/
theorem claim_C1_amended_witness :
    (allImageNames wDoc.pages).Nodup ∧
    clean_document shadowHash wDoc = Option.some wDoc' ∧
    clean_document shadowHash wDoc' = Option.some wDoc' :=
  ⟨by decide, by decide,
    claim_C1_amended.2 shadowHash wDoc wDoc' (by decide) (by decide)⟩

/-- Claim C2 (amended): the Deduplicator never removes, reorders or
renumbers pages — page count, page indices and page dimensions are all
preserved (only image lists and paragraph texts change), and no
document field outside `pages` changes; in particular pages with
byte-identical reconstructed text are all retained. -/
theorem claim_C2_amended (hashFn : String → List Bool) (d d' : Document)
    (h : clean_document hashFn d = Option.some d') :
    d'.pages.map (fun p => (p.index, p.dimensions)) =
      d.pages.map (fun p => (p.index, p.dimensions)) ∧
    d'.pages.length = d.pages.length ∧
    d' = { d with pages := d'.pages } := by
  unfold clean_document at h
  simp only [] at h
  cases hm : (collectDuplicates (buildImagesDict hashFn d.pages)).foldlM
      applyRemoval d.pages with
  | none => rw [hm] at h; cases h
  | some P' =>
    rw [hm] at h
    simp only [Option.map_some'] at h
    have hd : ({ d with pages := P' } : Document) = d' := Option.some.inj h
    have hproj := removalFold_proj _ d.pages P' hm
    have hpages : d'.pages = P' := by rw [← hd]
    constructor
    · rw [hpages]; exact hproj
    constructor
    · have := congrArg List.length hproj
      simpa [hpages] using this
    · rw [← hd]

/-- Witness for C2 (amended) at a concrete cleaning run. -/
theorem claim_C2_amended_witness :
    clean_document shadowHash wDoc = Option.some wDoc' ∧
    (wDoc'.pages.map (fun p => (p.index, p.dimensions)) =
      wDoc.pages.map (fun p => (p.index, p.dimensions)) ∧
    wDoc'.pages.length = wDoc.pages.length ∧
    wDoc' = { wDoc with pages := wDoc'.pages }) :=
  ⟨by decide, claim_C2_amended shadowHash wDoc wDoc' (by decide)⟩

/-! ### Table detection and substitution: concrete refutations -/

/-- Claim C6 counterexample: on `"| A | B |\n| ---"` the claim's
characterization holds (two lines, a data row, and a line beginning
with a bar followed by dashes) yet `is_markdown_table` answers false,
because the code's separator regex `^\|\s*[-:]+\s*\|` also requires a
closing bar after the dash run. -/
theorem claim_C6_counterexample :
    isTableClaimC6 "| A | B |\n| ---" = true ∧
    is_markdown_table "| A | B |\n| ---" = false := by
  refine ⟨by decide, by decide⟩

/-- Claim C10 failing input evaluated: on a document with a detected
table paragraph and a renderable source page, the code reaches
`Paragraph(index=..., content=..., tag=..., source_ref=para.source_ref)`
and raises AttributeError (`document_schema.Paragraph` has no
`source_ref` field) instead of returning the document with the table
replaced in place. -/
theorem claim_C10_code_eval :
    replace_tables_with_images tDoc pdf10 =
      Except.error TableError.attributeError ∧
    is_markdown_table tablePara.content = true := by
  refine ⟨rfl, by decide⟩

theorem isRowLine_nil : isRowLine "" = false := by decide

theorem isSeparatorLine_nil : isSeparatorLine "" = false := by decide

theorem tableFlagsStep_eq (st : Bool × Bool) (l : String) :
    tableFlagsStep st l =
      (st.1 || isRowLine (pyStrip l), st.2 || isSeparatorLine (pyStrip l)) := by
  unfold tableFlagsStep
  by_cases hl : pyStrip l = ""
  · rw [hl]
    simp [isRowLine_nil, isSeparatorLine_nil]
  · have hb : (pyStrip l == "") = false := by simp [hl]
    simp only [hb]
    simp

theorem tableFlags_eq_any (lines : List String) : ∀ a b : Bool,
    lines.foldl tableFlagsStep (a, b) =
    (a || lines.any (fun l => isRowLine (pyStrip l)),
     b || lines.any (fun l => isSeparatorLine (pyStrip l))) := by
  induction lines with
  | nil => intro a b; simp
  | cons l ls ih =>
    intro a b
    rw [List.foldl_cons, tableFlagsStep_eq, ih]
    simp [List.any_cons, Bool.or_assoc]

/-- Claim C6 (amended): `is_markdown_table` answers true exactly when
the trimmed content spans at least two lines, some line begins with a
bar, ends with a bar and contains at least two further bar delimiters
(a data/header row), and some line begins with a bar followed by
optional whitespace, one or more dash/colon characters, optional
whitespace and another bar (the header-separator row); the two named
examples classify as stated. -/
theorem claim_C6_amended :
    (∀ content, is_markdown_table content = isTableSpec content) ∧
    is_markdown_table "| A | B |\n| --- | --- |\n| 1 | 2 |" = true ∧
    is_markdown_table "This is regular text with | a pipe character" = false := by
  refine ⟨?_, by decide, by decide⟩
  intro content
  unfold is_markdown_table isTableSpec
  by_cases h0 : content = ""
  · subst h0; decide
  by_cases h1 : pyStrip content = ""
  · have hg : (content == "" || pyStrip content == "") = true := by
      simp [h1]
    rw [if_pos hg, h1]
    have hsplit : pySplit "" "\n" = [""] := rfl
    rw [hsplit]
    decide
  · have hg : (content == "" || pyStrip content == "") = false := by
      simp [h0, h1]
    simp only [hg, Bool.false_eq_true, if_false]
    by_cases h2 : (pySplit (pyStrip content) "\n").length < 2
    · rw [if_pos h2]
      have hd : decide (2 ≤ (pySplit (pyStrip content) "\n").length) = false := by
        simp
        omega
      simp [hd]
    · rw [if_neg h2]
      rw [tableFlags_eq_any]
      have hd : decide (2 ≤ (pySplit (pyStrip content) "\n").length) = true := by
        simp
        omega
      simp [hd]

theorem renderFailed_error (pdf : Pdf) (i : Int)
    (h : renderFailed pdf i = true) :
    ∃ e, pdf_page_to_base64 pdf i = Except.error e := by
  unfold renderFailed at h
  cases hm : pdf_page_to_base64 pdf i with
  | error e => exact ⟨e, rfl⟩
  | ok v => rw [hm] at h; cases h

theorem replaceTablesParaFold (pdf : Pdf) (pdfIdx : Int)
    (paras : List Paragraph)
    (h : ∀ para ∈ paras, is_markdown_table para.content = true →
      renderFailed pdf pdfIdx = true) :
    ∀ (c : Nat) (ps : List Paragraph) (imgs : List Image),
    ∃ c', paras.foldlM (replaceTablesPara pdf pdfIdx)
      ((⟨[], c⟩ : TSt), ps, imgs) =
      Except.ok ((⟨[], c'⟩ : TSt), ps ++ paras, imgs) := by
  induction paras with
  | nil =>
    intro c ps imgs
    refine ⟨c, ?_⟩
    rw [List.append_nil]
    rfl
  | cons a as ih =>
    intro c ps imgs
    have hstep : ∃ c1,
        replaceTablesPara pdf pdfIdx ((⟨[], c⟩ : TSt), ps, imgs) a =
          Except.ok ((⟨[], c1⟩ : TSt), ps ++ [a], imgs) := by
      unfold replaceTablesPara
      by_cases ht : is_markdown_table a.content = true
      · obtain ⟨e, he⟩ :=
          renderFailed_error pdf pdfIdx (h a (List.mem_cons_self a as) ht)
        refine ⟨c + 1, ?_⟩
        simp only [ht, if_true]
        rw [show cacheLookup (⟨[], c⟩ : TSt).rendered pdfIdx = Option.none
          from rfl]
        rw [he]
      · have ht' : is_markdown_table a.content = false := by
          revert ht
          cases is_markdown_table a.content <;> simp
        refine ⟨c, ?_⟩
        simp [ht']
    obtain ⟨c1, hc1⟩ := hstep
    obtain ⟨c', hc'⟩ :=
      ih (fun p hp hmt => h p (List.mem_cons_of_mem a hp) hmt) c1
        (ps ++ [a]) imgs
    refine ⟨c', ?_⟩
    rw [List.foldlM_cons, hc1]
    show as.foldlM (replaceTablesPara pdf pdfIdx)
      ((⟨[], c1⟩ : TSt), ps ++ [a], imgs) = _
    rw [hc']
    simp

theorem replaceTablesPageFail (pdf : Pdf) (page : Page) (c : Nat)
    (h : ∀ para ∈ page.paragraphs, is_markdown_table para.content = true →
      renderFailed pdf ((page.index : Int) - 1) = true) :
    ∃ c', replaceTablesPage pdf (⟨[], c⟩ : TSt) page =
      Except.ok ((⟨[], c'⟩ : TSt), page) := by
  obtain ⟨c', hc'⟩ := replaceTablesParaFold pdf ((page.index : Int) - 1)
    page.paragraphs h c [] page.images
  refine ⟨c', ?_⟩
  unfold replaceTablesPage
  rw [hc']
  rfl

theorem replaceTablesDocFold (pdf : Pdf) (pages : List Page)
    (h : ∀ page ∈ pages, ∀ para ∈ page.paragraphs,
      is_markdown_table para.content = true →
      renderFailed pdf ((page.index : Int) - 1) = true) :
    ∀ (c : Nat) (acc : List Page),
    ∃ c', pages.foldlM (replaceTablesDocStep pdf) ((⟨[], c⟩ : TSt), acc) =
      Except.ok ((⟨[], c'⟩ : TSt), acc ++ pages) := by
  induction pages with
  | nil =>
    intro c acc
    refine ⟨c, ?_⟩
    rw [List.append_nil]
    rfl
  | cons pg pgs ih =>
    intro c acc
    obtain ⟨c1, hc1⟩ :=
      replaceTablesPageFail pdf pg c (h pg (List.mem_cons_self pg pgs))
    obtain ⟨c', hc'⟩ :=
      ih (fun p hp => h p (List.mem_cons_of_mem pg hp)) c1 (acc ++ [pg])
    refine ⟨c', ?_⟩
    rw [List.foldlM_cons]
    show (replaceTablesPage pdf (⟨[], c⟩ : TSt) pg >>=
      (fun s => pure (s.1, acc ++ [s.2]))) >>=
      (fun b => pgs.foldlM (replaceTablesDocStep pdf) b) = _
    rw [hc1]
    show pgs.foldlM (replaceTablesDocStep pdf)
      ((⟨[], c1⟩ : TSt), acc ++ [pg]) = _
    rw [hc']
    simp

/-- Claim C7: when rendering fails for every page that holds a detected
table paragraph (source file missing, or page index out of range), the
whole-document run of `replace_tables_with_images` completes without
aborting and returns the document with every such paragraph — and
everything else — untouched. -/
theorem claim_C7 (doc : Document) (pdf : Pdf)
    (h : ∀ page ∈ doc.pages, ∀ para ∈ page.paragraphs,
      is_markdown_table para.content = true →
      renderFailed pdf ((page.index : Int) - 1) = true) :
    replace_tables_with_images doc pdf = Except.ok doc := by
  obtain ⟨c', hc'⟩ := replaceTablesDocFold pdf doc.pages h 0 []
  unfold replace_tables_with_images
  rw [hc']
  rfl

/-- Witness for C7: a document with one table paragraph against a
missing source file comes back unchanged. -/
theorem claim_C7_witness :
    (∀ page ∈ tDoc.pages, ∀ para ∈ page.paragraphs,
      is_markdown_table para.content = true →
      renderFailed (Option.none : Pdf) ((page.index : Int) - 1) = true) ∧
    replace_tables_with_images tDoc (Option.none : Pdf) = Except.ok tDoc :=
  ⟨by decide, claim_C7 tDoc (Option.none : Pdf) (by decide)⟩

/-! ### OCR normalization -/

theorem foldlIndexed {α β : Type} (g : Nat → α → β) (l : List α) :
    ∀ (acc : List β) (n : Nat),
    l.foldl (fun (st : List β × Nat) x => (st.1 ++ [g (st.2 + 1) x], st.2 + 1))
      (acc, n) =
    (acc ++ (l.enumFrom (n + 1)).map (fun p => g p.1 p.2), n + l.length) := by
  induction l with
  | nil => intro acc n; simp [List.enumFrom]
  | cons x xs ih =>
    intro acc n
    rw [List.foldl_cons, ih]
    simp only [List.enumFrom, List.map_cons, List.length_cons]
    refine congrArg₂ Prod.mk ?_ (by omega)
    simp

theorem buildParagraphs_eq (segs : List String) :
    buildParagraphs segs =
      (segs.enumFrom 1).map (fun p => (⟨p.1, p.2⟩ : Paragraph)) := by
  unfold buildParagraphs
  have h := foldlIndexed (fun i s => (⟨i, s⟩ : Paragraph)) segs [] 0
  rw [show (fun (st : List Paragraph × Nat) seg =>
      (st.1 ++ [(⟨st.2 + 1, seg⟩ : Paragraph)], st.2 + 1)) =
      (fun (st : List Paragraph × Nat) x =>
        (st.1 ++ [(fun i s => (⟨i, s⟩ : Paragraph)) (st.2 + 1) x], st.2 + 1))
    from rfl]
  rw [h]
  simp

theorem buildPagesFromOcr_eq (ops : List OcrPage) :
    buildPagesFromOcr ops =
      (ops.enumFrom 1).map (fun q =>
        (⟨q.1, buildParagraphs (pySplit q.2.markdown "\n\n"),
          q.2.images, q.2.dimensions⟩ : Page)) := by
  unfold buildPagesFromOcr
  have h := foldlIndexed
    (fun i (p : OcrPage) =>
      (⟨i, buildParagraphs (pySplit p.markdown "\n\n"),
        p.images, p.dimensions⟩ : Page)) ops [] 0
  rw [show (fun (st : List Page × Nat) (p : OcrPage) =>
      (st.1 ++ [(⟨st.2 + 1, buildParagraphs (pySplit p.markdown "\n\n"),
                  p.images, p.dimensions⟩ : Page)], st.2 + 1)) =
      (fun (st : List Page × Nat) x =>
        (st.1 ++ [(fun i (p : OcrPage) =>
          (⟨i, buildParagraphs (pySplit p.markdown "\n\n"),
            p.images, p.dimensions⟩ : Page)) (st.2 + 1) x], st.2 + 1))
    from rfl]
  rw [h]
  simp

/-- Claim C8 (amended): the Nth raw OCR page (0-based) becomes a Page
with index N+1 whose images and dimensions are carried through
verbatim, and the page's markdown is split on two consecutive newline
characters with EVERY segment — empty segments included — becoming a
Paragraph whose index is its 1-based position among the segments and
whose content is the raw untrimmed segment. -/
theorem claim_C8_amended (resp : OcrResponse) (doc_name city : String)
    (zone : Option String) (now : String) :
    (ocr_response_to_document resp doc_name city zone now).pages =
      (resp.pages.enumFrom 1).map (fun q =>
        (⟨q.1,
          ((pySplit q.2.markdown "\n\n").enumFrom 1).map
            (fun r => (⟨r.1, r.2⟩ : Paragraph)),
          q.2.images, q.2.dimensions⟩ : Page)) := by
  show buildPagesFromOcr resp.pages = _
  rw [buildPagesFromOcr_eq]
  apply List.map_congr_left
  intro q _
  rw [buildParagraphs_eq]

/-- Claim C8 counterexample: the markdown `"a\n\n"` splits into the
segments `["a", ""]`; the code turns the empty segment into
`Paragraph(index = 2, content = "")`, while the claim's construction
(only non-empty segments become Paragraphs) yields a single
paragraph. -/
theorem claim_C8_counterexample :
    (ocr_response_to_document resp8 "doc" "city" Option.none "t").pages =
      [⟨1, [⟨1, "a"⟩, ⟨2, ""⟩], [], dims0⟩] ∧
    specPagesC8 resp8 = [⟨1, [⟨1, "a"⟩], [], dims0⟩] ∧
    (ocr_response_to_document resp8 "doc" "city" Option.none "t").pages ≠
      specPagesC8 resp8 := by
  refine ⟨by decide, by decide, by decide⟩

end Mawa
